import Mathlib

/-!
Verification development for an HTTP/1.1 message-framing library.

The definitions below are a shallow embedding of the library's Rust source:
bytes are modelled as `Nat` (always < 256 on the inputs considered), byte
slices as `List Nat`, and each parser of the grammar as a function
`List Nat → Option (result × remainder)`.  Fallible operations return
`Option`; a Rust panic is modelled by a dedicated constructor or by `none`
where noted.  Names follow the source (`token`, `field_value`,
`chunk_head`, `Headers.get`, ...).
-/

namespace HttpSpec

/-- Byte content of an ASCII string literal (all inputs used are ASCII,
where `Char.toNat` agrees with the UTF-8 byte). -/
def bytes (s : String) : List Nat := s.data.map Char.toNat

/-- ASCII lower-casing of one byte, as Rust's `to_ascii_lowercase`. -/
def lowerByte (b : Nat) : Nat := if 65 ≤ b ∧ b ≤ 90 then b + 32 else b

/-- Rust `str::eq_ignore_ascii_case`: equality after ASCII lower-casing. -/
def eqIgnoreAsciiCase (a b : List Nat) : Bool :=
  a.map lowerByte == b.map lowerByte

/-- A parsed header: `Header { name, value }` from `ast.rs` (both are
textual slices; we keep their byte content). -/
structure Header where
  name : List Nat
  value : List Nat
deriving DecidableEq

/-- `Headers` from `ast.rs`: an insertion-ordered sequence. -/
abbrev Headers := List Header

namespace Headers

/-- `Headers::get`: value of the first header whose name matches
case-insensitively. -/
def get (h : Headers) (n : List Nat) : Option (List Nat) :=
  (h.find? (fun hd => eqIgnoreAsciiCase n hd.name)).map (·.value)

/-- `Headers::headers`: values of all case-insensitive matches, in order. -/
def values (h : Headers) (n : List Nat) : List (List Nat) :=
  (h.filter (fun hd => eqIgnoreAsciiCase n hd.name)).map (·.value)

/-- `Headers::replace`: retain all non-matching headers, then push the
new `(name, value)` pair at the end. -/
def replace (h : Headers) (n v : List Nat) : Headers :=
  h.filter (fun hd => !eqIgnoreAsciiCase n hd.name) ++ [⟨n, v⟩]

/-- `Headers::remove`: retain only the non-matching headers. -/
def remove (h : Headers) (n : List Nat) : Headers :=
  h.filter (fun hd => !eqIgnoreAsciiCase n hd.name)

end Headers

/-- Rust `str::parse::<u64>`: optional leading `+`, then one or more ASCII
digits, value below 2^64 (overflow is an error). -/
def parse_u64 (s : List Nat) : Option Nat :=
  let digits := fun (l : List Nat) =>
    if l ≠ [] ∧ l.all (fun b => 48 ≤ b ∧ b ≤ 57) then
      let v := l.foldl (fun a b => a * 10 + (b - 48)) 0
      if v < 2 ^ 64 then some v else none
    else none
  match s with
  | 43 :: rest => digits rest
  | _ => digits s

/-- Name bytes of the `Content-Length` header. -/
def contentLengthName : List Nat := bytes ("Content-Length")

/-- Name bytes of the `Transfer-Encoding` header. -/
def transferEncodingName : List Nat := bytes ("Transfer-Encoding")

/-- `Headers::content_length`: first `Content-Length` header (case
insensitive), parsed as `u64`; `None` when absent or unparseable. -/
def Headers.content_length (h : Headers) : Option Nat :=
  (h.get contentLengthName).bind parse_u64

/-! ### Grammar (`grammar.rs`): byte predicates -/

/-- `is_digit` (`0x30..=0x39`). -/
def isDigitB (b : Nat) : Bool := 48 ≤ b && b ≤ 57

/-- `is_hex_digit` (`0-9`, `A-F`, `a-f`). -/
def isHexDigitB (b : Nat) : Bool :=
  (48 ≤ b && b ≤ 57) || (65 ≤ b && b ≤ 70) || (97 ≤ b && b ≤ 102)

/-- `is_alphabetic` (ASCII letters). -/
def isAlphaB (b : Nat) : Bool := (65 ≤ b && b ≤ 90) || (97 ≤ b && b ≤ 122)

/-- `tchar` predicate: the bytes of the string `!#$%&'*+-.^_|~` plus the
backtick (0x60), digits, letters. -/
def isTchar (b : Nat) : Bool :=
  b == 33 || b == 35 || b == 36 || b == 37 || b == 38 || b == 39 || b == 42 ||
  b == 43 || b == 45 || b == 46 || b == 94 || b == 95 || b == 96 || b == 124 ||
  b == 126 || isDigitB b || isAlphaB b

/-- `VCHAR` (`0x21..=0x7E`). -/
def isVchar (b : Nat) : Bool := 33 ≤ b && b ≤ 126

/-- `obs-text` (`0x80..=0xFF`). -/
def isObsText (b : Nat) : Bool := 128 ≤ b && b ≤ 255

/-- `SP / HTAB`. -/
def isSpHtab (b : Nat) : Bool := b == 32 || b == 9

/-- `field-vchar` = VCHAR / obs-text. -/
def isFieldVchar (b : Nat) : Bool := isVchar b || isObsText b

/-- `reason-phrase` characters: HTAB / SP / VCHAR / obs-text. -/
def isReasonChar (b : Nat) : Bool := isSpHtab b || isVchar b || isObsText b

/-- `qdtext`: HTAB / SP / 0x21 / 0x23-0x5B / 0x5D-0x7E / obs-text. -/
def isQdtext (b : Nat) : Bool :=
  isSpHtab b || b == 33 || (35 ≤ b && b ≤ 91) || (93 ≤ b && b ≤ 126) || isObsText b

/-! ### Parser type and small combinators

A parser consumes a byte slice and yields a value with the unconsumed
remainder; `none` covers both nom's `Error` and `Incomplete` outcomes
(all claims below evaluate parsers on complete inputs, where the two
coincide under `complete!`). -/

/-- The parser shape used by the grammar. -/
def P (α : Type) : Type := List Nat → Option (α × List Nat)

/-- `tag!`: match an exact byte sequence. -/
def tagP (t : List Nat) : P (List Nat) := fun i =>
  if t.isPrefixOf i then some (t, i.drop t.length) else none

/-- One byte satisfying a predicate (the `char_predicate!` macro). -/
def charP (p : Nat → Bool) : P Nat := fun i =>
  match i with
  | [] => none
  | b :: rest => if p b then some (b, rest) else none

/-- `many1` of a byte predicate, joined into one slice
(`many1!(complete!(...))` + `join_vec`): the maximal nonempty run. -/
def takeWhile1 (p : Nat → Bool) : P (List Nat) := fun i =>
  let r := i.takeWhile p
  if r.isEmpty then none else some (r, i.drop r.length)

/-- `many0` of a byte predicate, joined into one slice. -/
def takeWhile0 (p : Nat → Bool) : P (List Nat) := fun i =>
  some (i.takeWhile p, i.drop (i.takeWhile p).length)

/-- `str::from_utf8` as used on header text.  Approximated by an
ASCII-only check: every input in this development is ASCII, where the
check coincides with UTF-8 validity (non-ASCII obs-text would need full
UTF-8 validation). -/
def fromUtf8Ascii (l : List Nat) : Option (List Nat) :=
  if l.all (fun b => b < 128) then some l else none

/-- Greedy repetition of a multi-byte parser (`many0!(complete!(..))`).
Fuel is the input length; every grammar element below consumes at least
one byte on success, so the fuel never runs out before the parser fails. -/
def many0P {α : Type} (p : P α) : List Nat → List α × List Nat := fun i =>
  go i.length i
where
  go : Nat → List Nat → List α × List Nat
  | 0, i => ([], i)
  | fuel + 1, i =>
    match p i with
    | none => ([], i)
    | some (a, rest) =>
      if rest.length < i.length then
        let (as, r) := go fuel rest
        (a :: as, r)
      else ([a], rest)

/-! ### Grammar productions -/

/-- `CRLF`. -/
def crlfTag : List Nat := [13, 10]

/-- `token = 1*tchar` (UTF-8 check always passes: tchar is ASCII). -/
def token : P (List Nat) := takeWhile1 isTchar

/-- `OWS = *( SP / HTAB )`. -/
def ows : P (List Nat) := takeWhile0 isSpHtab

/-- `spaces` / `RWS`: `1*( SP / HTAB )`. -/
def spaces : P (List Nat) := takeWhile1 isSpHtab

/-- `HTTP-version = "HTTP/" DIGIT "." DIGIT`, digits decoded by
`asci_digit` (byte − 48). -/
def http_version : P (Nat × Nat) := fun i => do
  let (_, i) ← tagP (bytes ("HTTP/")) i
  let (maj, i) ← charP isDigitB i
  let (_, i) ← tagP (bytes (".")) i
  let (min, i) ← charP isDigitB i
  pure ((maj - 48, min - 48), i)

/-- `request-target`: `is_not!(" ")`, one or more non-space bytes. -/
def request_target : P (List Nat) := fun i => do
  let (r, rest) ← takeWhile1 (fun b => b ≠ 32) i
  let (v, _) ← (fromUtf8Ascii r).map (fun v => (v, ([] : List Nat)))
  pure (v, rest)

/-- Parsed `RequestLine`. -/
structure RequestLine where
  method : List Nat
  target : List Nat
  major : Nat
  minor : Nat
deriving DecidableEq

/-- `request-line = method SP request-target SP HTTP-version CRLF`. -/
def request_line : P RequestLine := fun i => do
  let (m, i) ← token i
  let (_, i) ← tagP [32] i
  let (t, i) ← request_target i
  let (_, i) ← tagP [32] i
  let ((maj, min), i) ← http_version i
  let (_, i) ← tagP crlfTag i
  pure (⟨m, t, maj, min⟩, i)

/-- `status-code = 3DIGIT`, decoded through `parse_u16` (three digits
never exceed `u16`). -/
def status_code : P Nat := fun i =>
  match i with
  | a :: b :: c :: rest =>
    if isDigitB a && isDigitB b && isDigitB c then
      some (((a - 48) * 10 + (b - 48)) * 10 + (c - 48), rest)
    else none
  | _ => none

/-- `reason-phrase = *( HTAB / SP / VCHAR / obs-text )` with UTF-8 check. -/
def reason_phrase : P (List Nat) := fun i => do
  let (r, rest) ← takeWhile0 isReasonChar i
  let (v, _) ← (fromUtf8Ascii r).map (fun v => (v, ([] : List Nat)))
  pure (v, rest)

/-- Parsed `StatusLine`. -/
structure StatusLine where
  major : Nat
  minor : Nat
  code : Nat
  description : List Nat
deriving DecidableEq

/-- `status-line = HTTP-version SP status-code SP reason-phrase CRLF`. -/
def status_line : P StatusLine := fun i => do
  let ((maj, min), i) ← http_version i
  let (_, i) ← tagP [32] i
  let (c, i) ← status_code i
  let (_, i) ← tagP [32] i
  let (d, i) ← reason_phrase i
  let (_, i) ← tagP crlfTag i
  pure (⟨maj, min, c, d⟩, i)

/-- `StartLine` = request-line | status-line. -/
inductive StartLine where
  | requestLine (rl : RequestLine)
  | statusLine (sl : StatusLine)
deriving DecidableEq

/-- `start-line = request-line / status-line` (ordered alternatives). -/
def start_line : P StartLine := fun i =>
  match request_line i with
  | some (rl, rest) => some (.requestLine rl, rest)
  | none =>
    match status_line i with
    | some (sl, rest) => some (.statusLine sl, rest)
    | none => none

/-- `field-content = field-vchar [ 1*( SP / HTAB ) field-vchar ]`; the
optional part is joined to the leading byte (`join_slice`), so the piece
is exactly the consumed bytes. -/
def field_content : P (List Nat) := fun i => do
  let (c, i1) ← charP isFieldVchar i
  match (do
      let (s, i2) ← spaces i1
      let (v, i3) ← charP isFieldVchar i2
      pure (s ++ [v], i3) : Option (List Nat × List Nat)) with
  | some (other, i3) => pure (c :: other, i3)
  | none => pure ([c], i1)

/-- `obs-fold = CRLF 1*( SP / HTAB )`, producing `Default::default()` —
the empty slice. -/
def obs_fold : P (List Nat) := fun i => do
  let (_, i) ← tagP crlfTag i
  let (_, i) ← spaces i
  pure (([] : List Nat), i)

/-- One `field-value` element: `field_content | obs_fold`. -/
def fvElem : P (List Nat) := fun i =>
  match field_content i with
  | some r => some r
  | none => obs_fold i

/-- `field-value = *( field-content / obs-fold )`, pieces concatenated by
`to_cow_str` (borrowed when adjacent, owned otherwise — the byte content
is the concatenation either way) and UTF-8-checked. -/
def field_value : P (List Nat) := fun i =>
  let (pieces, rest) := many0P fvElem i
  match fromUtf8Ascii pieces.flatten with
  | some v => some (v, rest)
  | none => none

/-- `header-field = field-name ":" OWS field-value OWS`. -/
def header_field : P Header := fun i => do
  let (n, i) ← token i
  let (_, i) ← tagP [58] i
  let (_, i) ← ows i
  let (v, i) ← field_value i
  let (_, i) ← ows i
  pure (⟨n, v⟩, i)

/-- `headers = *( header-field CRLF )` — `many0` never fails, so this is
a total function returning the parsed headers and the remainder. -/
def headersF (i : List Nat) : Headers × List Nat :=
  many0P (fun j => do
    let (h, j) ← header_field j
    let (_, j) ← tagP crlfTag j
    pure (h, j)) i

/-- Parsed `MessageHead`. -/
structure MessageHead where
  startLine : StartLine
  headers : Headers
deriving DecidableEq

/-- `message-head = start-line headers CRLF`. -/
def message_head : P MessageHead := fun i => do
  let (sl, i) ← start_line i
  let (hs, i) := headersF i
  let (_, i) ← tagP crlfTag i
  pure (⟨sl, hs⟩, i)

/-! ### Quoted strings, chunk grammar, transfer codings -/

/-- `quoted-pair = "\" ( HTAB / SP / VCHAR / obs-text )`, yielding the
escaped byte. -/
def quoted_pair : P Nat := fun i => do
  let (_, i) ← tagP [92] i
  charP isReasonChar i

/-- One `quoted-string` inner element: qdtext | quoted-pair. -/
def qsElem : P Nat := fun i =>
  match charP isQdtext i with
  | some r => some r
  | none => quoted_pair i

/-- `quoted-string = DQUOTE *( qdtext / quoted-pair ) DQUOTE` with the
`to_cow_str` UTF-8 check. -/
def quoted_string : P (List Nat) := fun i => do
  let (_, i) ← tagP [34] i
  let (cs, i) := many0P qsElem i
  let (_, i) ← tagP [34] i
  let (v, _) ← (fromUtf8Ascii cs).map (fun v => (v, ([] : List Nat)))
  pure (v, i)

/-- Hex value of a run of HEXDIG bytes. -/
def hexVal (l : List Nat) : Nat :=
  l.foldl (fun a b =>
    a * 16 + (if b ≤ 57 then b - 48 else if b ≤ 70 then b - 55 else b - 87)) 0

/-- `chunk-size = 1*HEXDIG` via `parse_hex` (`u64::from_str_radix`):
overflow past 2^64 is an error. -/
def chunk_size : P Nat := fun i => do
  let (r, rest) ← takeWhile1 isHexDigitB i
  if hexVal r < 2 ^ 64 then pure (hexVal r, rest) else none

/-- Chunk extensions: ordered `(name, optional value)` pairs. -/
abbrev ChunkExtensions := List (List Nat × Option (List Nat))

/-- `chunk-ext-val = token / quoted-string`. -/
def chunk_ext_value : P (List Nat) := fun i =>
  match token i with
  | some r => some r
  | none => quoted_string i

/-- `chunk-ext = *( BWS ";" BWS chunk-ext-name [ BWS "=" BWS chunk-ext-val ] )`. -/
def chunk_ext : P ChunkExtensions := fun i =>
  let (es, rest) := many0P (fun j => do
    let (_, j) ← ows j
    let (_, j) ← tagP [59] j
    let (_, j) ← ows j
    let (n, j) ← token j
    match (do
        let (_, j2) ← ows j
        let (_, j2) ← tagP [61] j2
        let (_, j2) ← ows j2
        let (v, j2) ← chunk_ext_value j2
        pure (v, j2) : Option (List Nat × List Nat)) with
    | some (v, j2) => pure ((n, some v), j2)
    | none => pure ((n, none), j)) i
  some (es, rest)

/-- `chunk_head`: chunk-size, chunk-ext, CRLF. -/
def chunk_head : P (Nat × ChunkExtensions) := fun i => do
  let (s, i) ← chunk_size i
  let (e, i) ← chunk_ext i
  let (_, i) ← tagP crlfTag i
  pure ((s, e), i)

/-- `TransferCoding` from `ast.rs`. -/
inductive TransferCoding where
  | chunked
  | compress
  | deflate
  | gzip
  | extension (name : List Nat) (params : List (List Nat × Option (List Nat)))
deriving DecidableEq

/-- `transfer-parameter = token BWS "=" BWS [ token / quoted-string ]`
(the `=` is required by the source; the value is `opt!`). -/
def transfer_parameter : P (List Nat × Option (List Nat)) := fun i => do
  let (n, i) ← token i
  let (_, i) ← ows i
  let (_, i) ← tagP [61] i
  let (_, i) ← ows i
  match chunk_ext_value i with
  | some (v, i2) => pure ((n, some v), i2)
  | none => pure ((n, none), i)

/-- `transfer-extension = token *( OWS ";" OWS transfer-parameter )`. -/
def transfer_extension : P TransferCoding := fun i => do
  let (n, i) ← token i
  let (ps, i) := many0P (fun j => do
    let (_, j) ← ows j
    let (_, j) ← tagP [59] j
    let (_, j) ← ows j
    transfer_parameter j) i
  pure (.extension n ps, i)

/-- `transfer-coding`: the four known tokens, else transfer-extension. -/
def transfer_coding : P TransferCoding := fun i =>
  match tagP (bytes ("chunked")) i with
  | some (_, r) => some (.chunked, r)
  | none =>
  match tagP (bytes ("compress")) i with
  | some (_, r) => some (.compress, r)
  | none =>
  match tagP (bytes ("deflate")) i with
  | some (_, r) => some (.deflate, r)
  | none =>
  match tagP (bytes ("gzip")) i with
  | some (_, r) => some (.gzip, r)
  | none => transfer_extension i

/-- `Transfer-Encoding = 1#transfer-coding`: a nonempty comma-separated
list with OWS around separators. -/
def transfer_encoding : P (List TransferCoding) := fun i => do
  let (c, i) ← transfer_coding i
  let (cs, i) := many0P (fun j => do
    let (_, j) ← ows j
    let (_, j) ← tagP [44] j
    let (_, j) ← ows j
    transfer_coding j) i
  pure (c :: cs, i)

/-- `Headers::transfer_encoding`: parse every `Transfer-Encoding` header
left to right through `parse_nom` (each value must parse with empty
remainder); any failure makes the whole lookup fall back to the empty
list (`unwrap_or_else(Default)`). -/
def Headers.transfer_encoding_all (h : Headers) : List TransferCoding :=
  let step := fun (acc : Option (List TransferCoding)) (v : List Nat) =>
    acc.bind (fun cs =>
      match transfer_encoding v with
      | some (cs2, []) => some (cs ++ cs2)
      | _ => none)
  ((h.values transferEncodingName).foldl step (some [])).getD []

/-! ### Message body framing (`ast.rs`) -/

/-- `MessageBody` from `ast.rs`: `None`, a borrowed `Slice`, or a
`Reader`; the Reader is modelled by the byte content it would deliver. -/
inductive MessageBody where
  | nothing
  | slice (l : List Nat)
  | reader (content : List Nat)
deriving DecidableEq

/-- `MessageBody::read(headers, slice, reader)`: dispatch on
`content_length()` only.  `N ≤ |slice|` gives a `Slice` of the first `N`
bytes (consuming `N`); otherwise a `Reader` chaining the slice with
`reader.take(N − |slice|)` (consuming `|slice|`); anything else is
`None` with 0 consumed. -/
def MessageBody.read (h : Headers) (slice : List Nat) (up : List Nat) :
    MessageBody × Nat :=
  match h.content_length with
  | some n =>
    if 0 < n then
      if n ≤ slice.length then (.slice (slice.take n), n)
      else (.reader (slice ++ up.take (n - slice.length)), slice.length)
    else (.nothing, 0)
  | none => (.nothing, 0)

/-- The custom `PartialEq` on `MessageBody`: `None = None`, any two
`Reader`s are equal, `Slice`s compare contents. -/
def MessageBody.eqB : MessageBody → MessageBody → Bool
  | .nothing, .nothing => true
  | .reader _, .reader _ => true
  | .slice a, .slice b => a == b
  | _, _ => false

/-- `message_body` inside the grammar (`grammar.rs`): `take!(length)`
from the remaining slice when Content-Length is positive. -/
def message_body (h : Headers) (slice : List Nat) :
    Option (MessageBody × List Nat) :=
  match h.content_length with
  | some n =>
    if 0 < n then
      if n ≤ slice.length then some (.slice (slice.take n), slice.drop n)
      else none
    else some (.nothing, slice)
  | none => some (.nothing, slice)

/-! ### Uri, Request, Response, Message (`api.rs`) -/

/-- Parsed `Uri` (RFC 3986 regular-expression captures). -/
structure Uri where
  scheme : Option (List Nat)
  authority : Option (List Nat)
  path : List Nat
  query : Option (List Nat)
  fragment : Option (List Nat)
deriving DecidableEq

/-- `Uri::parse`: the anchored RFC 3986 regex
`^(?:([^:/?#]+):)?(?://([^/?#]*))?([^?#]*)(?:\?([^#]*))?(?:#(.*))?`
evaluated deterministically (each group is a prefix-greedy run). -/
def Uri.parse (s : List Nat) : Uri :=
  let notSchemeEnd := fun (b : Nat) => !(b == 58 || b == 47 || b == 63 || b == 35)
  let run := s.takeWhile notSchemeEnd
  let (scheme, s1) :=
    match s.drop run.length with
    | 58 :: rest => if run.isEmpty then (none, s) else (some run, rest)
    | _ => (none, s)
  let (authority, s2) :=
    match s1 with
    | 47 :: 47 :: rest =>
      let a := rest.takeWhile (fun b => !(b == 47 || b == 63 || b == 35))
      (some a, rest.drop a.length)
    | _ => (none, s1)
  let path := s2.takeWhile (fun b => !(b == 63 || b == 35))
  let s3 := s2.drop path.length
  let (query, s4) :=
    match s3 with
    | 63 :: rest =>
      let q := rest.takeWhile (fun b => !(b == 35))
      (some q, rest.drop q.length)
    | _ => (none, s3)
  let fragment := match s4 with | 35 :: rest => some rest | _ => none
  ⟨scheme, authority, path, query, fragment⟩

/-- `Request` (`api.rs`). -/
structure Request where
  method : List Nat
  uri : Uri
  headers : Headers
  entity : MessageBody
deriving DecidableEq

/-- `Request::new`: parses the target into a `Uri`. -/
def Request.new (method url : List Nat) (h : Headers) (e : MessageBody) :
    Request :=
  ⟨method, Uri.parse url, h, e⟩

/-- `Response` (`api.rs`). -/
structure Response where
  code : Nat
  description : List Nat
  headers : Headers
  entity : MessageBody
deriving DecidableEq

/-- Decimal digit bytes of a number (`format!` of an integer). -/
def natDigits (n : Nat) : List Nat := (Nat.toDigits 10 n).map Char.toNat

/-- `Response::calculate_length`: statically known body lengths. -/
def Response.calculate_length (r : Response) : Option Nat :=
  match r.entity with
  | .nothing => some 0
  | .slice l => some l.length
  | _ => none

/-- `Response::build`: when the body length is statically known, replace
the `Content-Length` header with it. -/
def Response.build (r : Response) : Response :=
  match r.calculate_length with
  | some len =>
    { r with headers := r.headers.replace contentLengthName (natDigits len) }
  | none => r

/-- `Response::new` runs `build`. -/
def Response.new (code : Nat) (d : List Nat) (h : Headers) (e : MessageBody) :
    Response :=
  Response.build ⟨code, d, h, e⟩

/-- The equality derived for `Response` (field-wise, with the custom
`MessageBody` equality). -/
def Response.eqB (a b : Response) : Bool :=
  a.code == b.code && a.description == b.description &&
  a.headers == b.headers && MessageBody.eqB a.entity b.entity

/-- `Message` = Request | Response. -/
inductive Message where
  | request (r : Request)
  | response (r : Response)
deriving DecidableEq

/-- `Message::read(slice, reader)`: parse the head, frame the body from
the remainder with `MessageBody::read`, and report
`head_length + body_read` bytes consumed. -/
def Message.read (slice : List Nat) (up : List Nat) : Option (Message × Nat) :=
  (message_head slice).map (fun (head, rem) =>
    let headLength := slice.length - rem.length
    let (body, bodyRead) := MessageBody.read head.headers rem up
    let msg :=
      match head.startLine with
      | .requestLine rl => Message.request (Request.new rl.method rl.target head.headers body)
      | .statusLine sl => Message.response (Response.new sl.code sl.description head.headers body)
    (msg, headLength + bodyRead))

/-- `http_message`: head plus grammar-level `message_body`. -/
def http_message : P (MessageHead × MessageBody) := fun i => do
  let (head, rem) ← message_head i
  let (body, rem) ← message_body head.headers rem
  pure ((head, body), rem)

/-- `Response::parse`: `http_message` then `From<HttpMessage>` (which
requires a status line; the request case panics in the source and is
modelled as `none`). -/
def Response.parse (slice : List Nat) : Option (Response × List Nat) := do
  let ((head, body), rem) ← http_message slice
  match head.startLine with
  | .statusLine sl => pure (Response.new sl.code sl.description head.headers body, rem)
  | .requestLine _ => none

/-! ### Serialization (`Display` / `WriteTo`) -/

/-- `Headers` display: each header as `name ++ ": " ++ value ++ CRLF`
(note the SP that `write!("{}: {}\r\n", ..)` inserts after the colon). -/
def Headers.writeBytes (h : Headers) : List Nat :=
  (h.map (fun hd => hd.name ++ [58, 32] ++ hd.value ++ crlfTag)).flatten

/-- `MessageBody::write_to`: `Slice` and `Reader` write their bytes,
`None` writes nothing. -/
def MessageBody.writeBytes : MessageBody → List Nat
  | .nothing => []
  | .slice l => l
  | .reader c => c

/-- `Response::write_to`: a fixed `HTTP/1.1` status line, the headers,
a blank line, then the body. -/
def Response.writeBytes (r : Response) : List Nat :=
  bytes ("HTTP/1.1 ") ++ natDigits r.code ++ [32] ++ r.description ++ crlfTag ++
  r.headers.writeBytes ++ crlfTag ++ r.entity.writeBytes

/-! ### Chunk reading (`ast.rs` `Chunk::read`) -/

/-- `Chunk`: a data chunk or the last chunk with its trailers. -/
inductive Chunk where
  | slice (ext : ChunkExtensions) (data : List Nat)
  | last (ext : ChunkExtensions) (trailers : Headers)
deriving DecidableEq

/-- Outcome of `Chunk::read`: success with consumed count, a parse
error (`Err`), or a panic (`&remainder[..size]` out of bounds). -/
inductive ChunkReadResult where
  | ok (c : Chunk) (consumed : Nat)
  | err
  | panic
deriving DecidableEq

/-- `Chunk::read(slice)`: parse the chunk head; a positive size yields a
`Slice` of the next `size` bytes with consumed
`head_len + size + 2` (the slice index panics when fewer than `size`
bytes remain); size 0 parses trailers and yields `Last` with consumed
covering head, trailers and the final CRLF (the CRLF bytes themselves
are not inspected). -/
def Chunk.read (slice : List Nat) : ChunkReadResult :=
  match chunk_head slice with
  | none => .err
  | some ((size, ext), rem) =>
    if 0 < size then
      if size ≤ rem.length then
        .ok (.slice ext (rem.take size)) ((slice.length - rem.length) + size + 2)
      else .panic
    else
      let (trailers, rem2) := headersF rem
      .ok (.last ext trailers) ((slice.length - rem2.length) + 2)

/-! ### ChunkStream (`api.rs`)

The underlying `BufRead` is modelled as the list of bytes not yet
consumed; `fill_buf` returns that list and `consume n` drops `n`
of it. -/

/-- `ChunkStreamState`. -/
inductive ChunkStreamState where
  | notStarted
  | consumed (n : Nat)
  | lastState (n : Nat)
  | finished
deriving DecidableEq

/-- One `next()` outcome. -/
inductive ChunkNextOut where
  | noItem
  | okChunk (c : Chunk)
  | errItem
  | panicked
deriving DecidableEq

/-- The parse step inside `next()`'s loop: empty buffer finishes the
stream, otherwise dispatch on `Chunk::read` (a parse error leaves the
state as it was after `update_state`). -/
def chunkStreamParse (src : List Nat) (keep : ChunkStreamState) :
    List Nat × ChunkStreamState × ChunkNextOut :=
  if src.isEmpty then (src, .finished, .noItem)
  else
    match Chunk.read src with
    | .ok c n =>
      match c with
      | .last _ _ => (src, .lastState n, .okChunk c)
      | .slice _ _ => (src, .consumed n, .okChunk c)
    | .err => (src, keep, .errItem)
    | .panic => (src, keep, .panicked)

/-- `ChunkStream::next`: `update_state` (consume the pending count; a
`Last` count flips to `Finished`), then parse the next chunk. -/
def chunkStreamNext (src : List Nat) (st : ChunkStreamState) :
    List Nat × ChunkStreamState × ChunkNextOut :=
  match st with
  | .finished => (src, .finished, .noItem)
  | .lastState n => (src.drop n, .finished, .noItem)
  | .notStarted => chunkStreamParse src .notStarted
  | .consumed n => chunkStreamParse (src.drop n) (.consumed n)

/-- The `Drop` loop `while let Some(Ok(_)) = self.next() {}`, with fuel
(each successful iteration consumes at least two bytes on the following
iteration, so `|src| + 2` units of fuel always suffice).  Returns the
final unconsumed bytes of the source, or `none` if an iteration
panicked. -/
def chunkStreamDropLoop : Nat → List Nat → ChunkStreamState → Option (List Nat)
  | 0, src, _ => some src
  | fuel + 1, src, st =>
    match chunkStreamNext src st with
    | (src2, st2, .okChunk _) => chunkStreamDropLoop fuel src2 st2
    | (_, _, .panicked) => none
    | (src2, _, _) => some src2

/-- `Drop for ChunkStream`, from an arbitrary state. -/
def ChunkStream.dropModel (src : List Nat) (st : ChunkStreamState) :
    Option (List Nat) :=
  chunkStreamDropLoop (src.length + 2) src st

/-- `src` is a run of data chunks followed by a last chunk, as consumed
by successive `Chunk::read` calls, with `tail` the bytes after the
chunked body. -/
inductive ChunksThen : List Nat → List Nat → Prop
  | lastChunk {src : List Nat} {e : ChunkExtensions} {t : Headers} {c : Nat}
      (h : Chunk.read src = .ok (.last e t) c) : ChunksThen src (src.drop c)
  | cons {src tail : List Nat} {e : ChunkExtensions} {d : List Nat} {c : Nat}
      (h : Chunk.read src = .ok (.slice e d) c)
      (rest : ChunksThen (src.drop c) tail) : ChunksThen src tail

/-- What the source must look like, per starting state, for the drop
loop to land exactly on `tail`. -/
def chunkStreamStateInv : ChunkStreamState → List Nat → List Nat → Prop
  | .notStarted, src, tail => ChunksThen src tail
  | .consumed n, src, tail => ChunksThen (src.drop n) tail
  | .lastState n, src, tail => src.drop n = tail
  | .finished, src, tail => src = tail

/-! ### Reader-backed body drop (`ast.rs` `impl Drop for MessageBody`)

The Reader built by `MessageBody::read` is `slice.chain(upstream.take(k))`.
`copy(reader, sink)` repeatedly reads from it; at list granularity one
read yields the whole slice, then one read yields `min k |upstream|`
bytes through the `take` limit, then EOF. -/

/-- State of the `chain(slice, take(k, upstream))` reader: unread slice
part, remaining `take` limit, unread upstream bytes. -/
structure ChainTakeState where
  sliceRem : List Nat
  limit : Nat
  upstream : List Nat
deriving DecidableEq

/-- One `read` call on the chained reader: `none` is EOF. -/
def chainTakeRead (r : ChainTakeState) : Option (List Nat × ChainTakeState) :=
  match r.sliceRem with
  | a :: rest => some (a :: rest, ⟨[], r.limit, r.upstream⟩)
  | [] =>
    if r.limit = 0 then none
    else
      match r.upstream.take r.limit with
      | [] => none
      | t => some (t, ⟨[], r.limit - t.length, r.upstream.drop t.length⟩)

/-- `std::io::copy(reader, sink)`: read until EOF (at most 3 productive
reads can occur, so 4 calls always reach EOF; the theorem checks that
the final state is indeed at EOF). -/
def copyToSink : Nat → ChainTakeState → ChainTakeState
  | 0, r => r
  | fuel + 1, r =>
    match chainTakeRead r with
    | none => r
    | some (_, r2) => copyToSink fuel r2

/-- `Drop for MessageBody` on a `Reader` body: drain to the null sink;
result is the reader state after the drain. -/
def MessageBody.dropDrain (slice : List Nat) (k : Nat) (up : List Nat) :
    ChainTakeState :=
  copyToSink 4 ⟨slice, k, up⟩

/-! ### Drop with I/O errors (`copy(..).expect(..)`)

To expose error behaviour, a byte source is modelled as the list of its
successive `read` outcomes: `Except.ok bs` delivers bytes (`[]` = EOF),
`Except.error ()` is an I/O error.  An exhausted list keeps returning
EOF. -/

/-- Read outcomes of a fallible source. -/
abbrev ReadEvents := List (Except Unit (List Nat))

/-- `read` events seen from a borrowed slice: all bytes, then EOF. -/
def sliceEvents (s : List Nat) : ReadEvents :=
  if s.isEmpty then [] else [.ok s]

/-- `Take::read`: pass bytes through clipped to the remaining limit; a
limit of 0 is EOF without consulting the source; errors propagate. -/
def takeEvents : Nat → ReadEvents → ReadEvents
  | _, [] => []
  | 0, _ => []
  | _, .error e :: _ => [.error e]
  | k, .ok bs :: rest =>
    let t := bs.take k
    .ok t :: takeEvents (k - t.length) rest

/-- `Chain::read`: the first reader's pre-EOF events, then the second's
(the slice side never reports EOF early). -/
def chainEvents (a b : ReadEvents) : ReadEvents := a ++ b

/-- `std::io::copy` over events: stops at the first EOF (`ok []` or end
of events) with the byte count, or propagates the first error. -/
def copyEvents : ReadEvents → Except Unit Nat
  | [] => .ok 0
  | .error e :: _ => .error e
  | .ok [] :: _ => .ok 0
  | .ok bs :: rest => (copyEvents rest).map (fun n => bs.length + n)

/-- `Drop for MessageBody` on `Reader(slice.chain(upstream.take(k)))`:
`copy(reader, &mut sink()).expect(..)` panics exactly when the copy
returns an error. -/
def MessageBody.dropPanics (slice : List Nat) (k : Nat) (up : ReadEvents) :
    Bool :=
  match copyEvents (chainEvents (sliceEvents slice) (takeEvents k up)) with
  | .error _ => true
  | .ok _ => false

example : chunkStreamNext (bytes ("4\r\nWiki\r\n0\r\n\r\nZ")) .notStarted =
    (bytes ("4\r\nWiki\r\n0\r\n\r\nZ"), .consumed 9, .okChunk (.slice [] (bytes ("Wiki")))) := by
  decide
example : ChunkStream.dropModel (bytes ("4\r\nWiki\r\n0\r\n\r\nZ")) .notStarted =
    some (bytes ("Z")) := by decide
example : MessageBody.dropDrain (bytes ("ab")) 2 (bytes ("cdEF")) =
    ⟨[], 0, bytes ("EF")⟩ := by decide
example : MessageBody.dropPanics [] 1 [.error ()] = true := by decide
example : MessageBody.dropPanics (bytes ("ab")) 2 [.ok (bytes ("cd"))] = false := by decide

/-! ### Concrete inputs used by the claims -/

/-- A response head announcing both `Transfer-Encoding: chunked` and
`Content-Length: 3`, followed by `abc` and further bytes. -/
def c1input : List Nat :=
  bytes ("HTTP/1.1 200 OK\r\nTransfer-Encoding: chunked\r\nContent-Length: 3\r\n\r\nabcXYZ")

/-- The headers of `c1input` as the grammar parses them. -/
def c1headers : Headers :=
  [⟨transferEncodingName, bytes ("chunked")⟩, ⟨contentLengthName, bytes ("3")⟩]

/-- The round-trip scenario input (headers written without a SP after
the colon). -/
def c4input : List Nat :=
  bytes ("HTTP/1.1 200 OK\r\nContent-Type:plain/text\r\nContent-Length:3\r\n\r\nabc")

/-- A complete chunked body (`Wiki`/`pedia`/` in\r\n\r\nchunks.`, then
the last chunk) followed by the bytes of the next message. -/
def wikiChunked : List Nat :=
  bytes ("4\r\nWiki\r\n5\r\npedia\r\nE\r\n in\r\n\r\nchunks.\r\n0\r\n\r\nNEXT")

/-- A small header list used by witnesses. -/
def demoHeaders : Headers :=
  [⟨bytes ("Content-Type"), bytes ("a/b")⟩, ⟨bytes ("Host"), bytes ("x")⟩]

/-! ### Helper lemmas -/

theorem find?_append_first {α : Type} (pre : List α) (a : α) (post : List α)
    (p : α → Bool) (hpre : ∀ x ∈ pre, p x = false) (ha : p a = true) :
    (pre ++ a :: post).find? p = some a := by
  induction pre with
  | nil => simp [List.find?_cons_of_pos, ha]
  | cons y ys ih =>
    have hy : p y = false := hpre y (by simp)
    rw [List.cons_append, List.find?_cons_of_neg _ (by simp [hy])]
    exact ih (fun x hx => hpre x (by simp [hx]))

theorem find?_filter_of_imp {α : Type} (l : List α) (p q : α → Bool)
    (himp : ∀ x, p x = true → q x = true) :
    (l.filter q).find? p = l.find? p := by
  induction l with
  | nil => rfl
  | cons y ys ih =>
    by_cases hq : q y = true
    · simp only [List.filter_cons, hq, if_true, List.find?_cons]
      cases hp : p y
      · exact ih
      · rfl
    · have hp : p y = false := by
        cases hp : p y
        · rfl
        · exact absurd (himp y hp) hq
      simp only [List.filter_cons, hq, if_false, List.find?_cons, hp,
        Bool.false_eq_true]
      exact ih

theorem eqIC_self (n : List Nat) : eqIgnoreAsciiCase n n = true := by
  simp [eqIgnoreAsciiCase]

theorem eqIC_congr {n n2 : List Nat}
    (h : n.map lowerByte = n2.map lowerByte) (m : List Nat) :
    eqIgnoreAsciiCase n m = eqIgnoreAsciiCase n2 m := by
  simp [eqIgnoreAsciiCase, h]

theorem eqIC_cl_not_te {m : List Nat}
    (h : eqIgnoreAsciiCase contentLengthName m = true) :
    eqIgnoreAsciiCase transferEncodingName m = false := by
  simp only [eqIgnoreAsciiCase, beq_iff_eq] at h ⊢
  rw [← h]
  decide

/-- Removing every `Transfer-Encoding` header does not change the
`Content-Length` lookup. -/
theorem content_length_remove_te (h : Headers) :
    (h.remove transferEncodingName).content_length = h.content_length := by
  unfold Headers.content_length Headers.get Headers.remove
  rw [find?_filter_of_imp]
  intro x hx
  simp [eqIC_cl_not_te hx]

theorem takeWhile_append_all {p : Nat → Bool} (ws : List Nat) (b : Nat)
    (r : List Nat) (hall : ∀ x ∈ ws, p x = true) (hb : p b = false) :
    (ws ++ b :: r).takeWhile p = ws := by
  induction ws with
  | nil => simp [List.takeWhile_cons, hb]
  | cons y ys ih =>
    have hy : p y = true := hall y (by simp)
    simp only [List.cons_append, List.takeWhile_cons, hy, if_true]
    rw [ih (fun x hx => hall x (by simp [hx]))]

theorem isPrefixOf_append (t r : List Nat) : t.isPrefixOf (t ++ r) = true := by
  induction t with
  | nil => simp [List.isPrefixOf]
  | cons x xs ih => simp [List.isPrefixOf, ih]

theorem tagP_exact (t r : List Nat) : tagP t (t ++ r) = some (t, r) := by
  unfold tagP
  rw [if_pos (isPrefixOf_append t r), List.drop_left]

/-! ### Claim theorems -/

/-- C1, counterexample: on a head whose Transfer-Encoding list is
`[chunked]` (its last coding is `chunked`) and which also carries
`Content-Length: 3`, `Message::read` does not produce a chunk-stream
body over the remaining bytes: it frames the body from Content-Length,
returning a `Slice` of `abc` and consuming head + 3 bytes.  So the
chunked coding does not win and Content-Length is not ignored. -/
theorem c1_counterexample :
    Headers.transfer_encoding_all c1headers = [.chunked]
  ∧ Message.read c1input [] =
      some (.response ⟨200, bytes ("OK"), c1headers, .slice (bytes ("abc"))⟩, 69) :=
  ⟨by decide, by decide⟩

/-- C1, amended: the framing engine ignores `Transfer-Encoding`
entirely — removing every `Transfer-Encoding` header never changes
`MessageBody::read`'s result — and on the concrete chunked-announcing
message the body is a `Slice` framed from `Content-Length` (which is
used rather than ignored); no chunk-stream body is ever produced by
`Message::read`. -/
theorem c1_amended :
    (∀ (h : Headers) (slice up : List Nat),
      MessageBody.read (h.remove transferEncodingName) slice up =
        MessageBody.read h slice up)
  ∧ Message.read c1input [] =
      some (.response ⟨200, bytes ("OK"), c1headers, .slice (bytes ("abc"))⟩, 69) := by
  constructor
  · intro h slice up
    unfold MessageBody.read
    rw [content_length_remove_te]
  · decide

/-- C3: `MessageBody::read` returns `None` consuming 0 bytes when
Content-Length is absent, malformed or 0; a `Slice` of exactly the
first `N` bytes consuming `N` when `0 < N ≤ |slice|`; and otherwise a
`Reader` yielding the slice followed by `N − |slice|` bytes taken from
upstream — never more than `N` in total, and exactly `N` when upstream
has enough bytes — consuming `|slice|` from the head input. -/
theorem c3_body_framing (h : Headers) (slice up : List Nat) :
    ((h.content_length = none ∨ h.content_length = some 0) →
      MessageBody.read h slice up = (.nothing, 0))
  ∧ (∀ n, h.content_length = some n → 0 < n → n ≤ slice.length →
      MessageBody.read h slice up = (.slice (slice.take n), n))
  ∧ (∀ n, h.content_length = some n → slice.length < n →
      MessageBody.read h slice up =
        (.reader (slice ++ up.take (n - slice.length)), slice.length)
      ∧ (slice ++ up.take (n - slice.length)).length ≤ n
      ∧ (n - slice.length ≤ up.length →
          (slice ++ up.take (n - slice.length)).length = n)) := by
  refine ⟨?_, ?_, ?_⟩
  · rintro (hcl | hcl) <;> simp [MessageBody.read, hcl]
  · intro n hcl hpos hle
    simp only [MessageBody.read, hcl]
    rw [if_pos hpos, if_pos hle]
  · intro n hcl hgt
    have hnle : ¬ n ≤ slice.length := by omega
    refine ⟨?_, ?_, ?_⟩
    · simp only [MessageBody.read, hcl]
      rw [if_pos (by omega), if_neg hnle]
    · simp only [List.length_append, List.length_take]
      omega
    · intro hup
      simp only [List.length_append, List.length_take]
      omega

/-- C3, witness: the three branches at concrete inputs. -/
theorem c3_witness :
    MessageBody.read [] (bytes ("xy")) [] = (.nothing, 0)
  ∧ MessageBody.read [⟨contentLengthName, bytes ("3")⟩] (bytes ("abcde")) [] =
      (.slice ((bytes ("abcde")).take 3), 3)
  ∧ (MessageBody.read [⟨contentLengthName, bytes ("5")⟩] (bytes ("ab")) (bytes ("cdEF")) =
      (.reader (bytes ("ab") ++ (bytes ("cdEF")).take (5 - (bytes ("ab")).length)),
        (bytes ("ab")).length)
    ∧ (bytes ("ab") ++ (bytes ("cdEF")).take (5 - (bytes ("ab")).length)).length ≤ 5
    ∧ (5 - (bytes ("ab")).length ≤ (bytes ("cdEF")).length →
        (bytes ("ab") ++ (bytes ("cdEF")).take (5 - (bytes ("ab")).length)).length = 5)) :=
  ⟨(c3_body_framing [] (bytes ("xy")) []).1 (Or.inl (by decide)),
   (c3_body_framing [⟨contentLengthName, bytes ("3")⟩] (bytes ("abcde")) []).2.1
     3 (by decide) (by decide) (by decide),
   (c3_body_framing [⟨contentLengthName, bytes ("5")⟩] (bytes ("ab")) (bytes ("cdEF"))).2.2
     5 (by decide) (by decide)⟩

/-- C4, counterexample: parsing the scenario input does yield
`Response{200, OK, Slice("abc")}`, but serializing that response does
not reproduce the input byte-for-byte: the `Display`/`WriteTo`
implementations emit a SP after each header colon, while the input has
none. -/
theorem c4_counterexample :
    (Response.parse c4input).map
        (fun p => (p.1.code, p.1.description, p.1.entity)) =
      some (200, bytes ("OK"), .slice (bytes ("abc")))
  ∧ (Response.parse c4input).map (fun p => Response.writeBytes p.1) ≠
      some c4input :=
  ⟨by decide, by decide⟩

/-- C4, amended: the input parses to
`Response{200, OK, headers, Slice("abc")}` with no remainder, and
serializing it produces the canonical form that differs from the input
only by the SP inserted after each header colon. -/
theorem c4_amended :
    Response.parse c4input =
      some (⟨200, bytes ("OK"),
        [⟨bytes ("Content-Type"), bytes ("plain/text")⟩,
         ⟨contentLengthName, bytes ("3")⟩],
        .slice (bytes ("abc"))⟩, [])
  ∧ (Response.parse c4input).map (fun p => Response.writeBytes p.1) =
      some (bytes ("HTTP/1.1 200 OK\r\nContent-Type: plain/text\r\nContent-Length: 3\r\n\r\nabc")) :=
  ⟨by decide, by decide⟩

/-- C5, counterexample: with two `Content-Length` headers whose first
value `abc` does not parse and whose second value `5` does, the engine
uses no length at all: `content_length()` is `None` and the body is
framed as `None` even though 5 bytes are available. -/
theorem c5_counterexample :
    Headers.content_length
        [⟨contentLengthName, bytes ("abc")⟩, ⟨contentLengthName, bytes ("5")⟩] = none
  ∧ parse_u64 (bytes ("5")) = some 5
  ∧ MessageBody.read
        [⟨contentLengthName, bytes ("abc")⟩, ⟨contentLengthName, bytes ("5")⟩]
        (bytes ("hello")) [] = (.nothing, 0) :=
  ⟨by decide, by decide, by decide⟩

/-- C5, amended: with multiple `Content-Length` headers the engine uses
the value of the first one (case-insensitive name match), whether or
not it parses; later `Content-Length` headers are never consulted. -/
theorem c5_first_header_wins (pre post : Headers) (hd : Header)
    (hpre : ∀ x ∈ pre, eqIgnoreAsciiCase contentLengthName x.name = false)
    (hhd : eqIgnoreAsciiCase contentLengthName hd.name = true) :
    Headers.content_length (pre ++ hd :: post) = parse_u64 hd.value := by
  unfold Headers.content_length Headers.get
  rw [find?_append_first pre hd post _ (fun x hx => hpre x hx) hhd]
  rfl

/-- C5, witness. -/
theorem c5_witness :
    Headers.content_length [⟨contentLengthName, bytes ("42")⟩] =
      parse_u64 (bytes ("42")) :=
  c5_first_header_wins [] [] ⟨contentLengthName, bytes ("42")⟩
    (by simp) (eqIC_self contentLengthName)

/-- C6, counterexample: on `4\r\nab` the chunk head parses with size 4,
but only 2 payload bytes follow, so `Chunk::read` panics
(`&remainder[..size]` is out of bounds) instead of returning a `Slice`
with exactly 4 payload bytes. -/
theorem c6_counterexample :
    chunk_head (bytes ("4\r\nab")) = some ((4, []), bytes ("ab"))
  ∧ Chunk.read (bytes ("4\r\nab")) = .panic :=
  ⟨by decide, by decide⟩

/-- C6, amended: when the chunk head parses and — for a positive size —
at least `size` payload bytes follow, `Chunk::read` returns
`Slice(ext, first size bytes)` with consumed `head_len + size + 2`;
with fewer payload bytes it panics instead.  For size 0 it parses the
trailer headers and returns `Last(ext, trailers)` with consumed
covering head, trailers and two bytes for the final CRLF (which is
counted but not inspected). -/
theorem c6_chunk_read (slice : List Nat) (size : Nat) (ext : ChunkExtensions)
    (rem : List Nat) (hhead : chunk_head slice = some ((size, ext), rem)) :
    (0 < size → size ≤ rem.length →
      Chunk.read slice =
        .ok (.slice ext (rem.take size)) ((slice.length - rem.length) + size + 2))
  ∧ (size = 0 →
      Chunk.read slice =
        .ok (.last ext (headersF rem).1)
          ((slice.length - (headersF rem).2.length) + 2)) := by
  constructor
  · intro hpos hle
    simp only [Chunk.read, hhead]
    rw [if_pos hpos, if_pos hle]
  · intro hz
    subst hz
    simp only [Chunk.read, hhead]
    rw [if_neg (Nat.lt_irrefl 0)]

/-- C6, witness: both branches at concrete inputs. -/
theorem c6_witness :
    Chunk.read (bytes ("4\r\nWiki\r\n")) =
      .ok (.slice [] ((bytes ("Wiki\r\n")).take 4))
        (((bytes ("4\r\nWiki\r\n")).length - (bytes ("Wiki\r\n")).length) + 4 + 2)
  ∧ Chunk.read (bytes ("0\r\n\r\nNEXT")) =
      .ok (.last [] (headersF (bytes ("\r\nNEXT"))).1)
        (((bytes ("0\r\n\r\nNEXT")).length -
          (headersF (bytes ("\r\nNEXT"))).2.length) + 2) :=
  ⟨(c6_chunk_read (bytes ("4\r\nWiki\r\n")) 4 [] (bytes ("Wiki\r\n"))
      (by decide)).1 (by decide) (by decide),
   (c6_chunk_read (bytes ("0\r\n\r\nNEXT")) 0 [] (bytes ("\r\nNEXT"))
      (by decide)).2 rfl⟩

/-- C8, counterexample: dropping a Reader-backed body whose upstream
read fails with an I/O error panics (`copy(..).expect(..)`), so
draining is not panic-free. -/
theorem c8_counterexample :
    MessageBody.dropPanics [] 1 [.error ()] = true := by decide

/-- C8, amended: an I/O error returned by the upstream source while a
dropped Reader-backed body is being drained is not absorbed: whenever
the take limit is positive and the upstream's next read errors, the
drop drain panics. -/
theorem c8_drop_can_panic (slice : List Nat) (k : Nat) (rest : ReadEvents)
    (hk : 0 < k) :
    MessageBody.dropPanics slice k (.error () :: rest) = true := by
  obtain ⟨k2, rfl⟩ : ∃ k2, k = k2 + 1 := ⟨k - 1, by omega⟩
  cases slice with
  | nil => rfl
  | cons a s => rfl

/-- C8, witness. -/
theorem c8_witness :
    MessageBody.dropPanics (bytes ("ab")) 3 (.error () :: [.ok []]) = true :=
  c8_drop_can_panic (bytes ("ab")) 3 [.ok []] (by decide)

/-- C10: the custom `PartialEq` makes any two `Reader` bodies equal
regardless of their byte producers, makes two `Slice` bodies equal
exactly when their contents agree, and consequently the derived
equality on `Response` cannot distinguish two responses differing only
in their streaming bodies. -/
theorem c10_reader_equality :
    (∀ ra rb : List Nat, MessageBody.eqB (.reader ra) (.reader rb) = true)
  ∧ (∀ sa sb : List Nat, (MessageBody.eqB (.slice sa) (.slice sb) = true) ↔ sa = sb)
  ∧ (∀ (code : Nat) (d : List Nat) (h : Headers) (ra rb : List Nat),
      Response.eqB ⟨code, d, h, .reader ra⟩ ⟨code, d, h, .reader rb⟩ = true) := by
  refine ⟨fun ra rb => rfl, fun sa sb => ?_, fun code d h ra rb => ?_⟩
  · simp [MessageBody.eqB]
  · simp [Response.eqB, MessageBody.eqB]

/-- C9: `get` finds the first case-insensitive match and is invariant
under ASCII case-variation of the looked-up name; `replace` removes
every case-variant and appends the single new pair at the end, leaving
the other headers and their order untouched; `remove` drops exactly the
case-insensitive occurrences, preserving the rest in order. -/
theorem c9_headers_ops (h pre post : Headers) (hd : Header)
    (n n2 v : List Nat) (hvar : n.map lowerByte = n2.map lowerByte) :
    (Headers.get h n = Headers.get h n2)
  ∧ ((∀ x ∈ pre, eqIgnoreAsciiCase n x.name = false) →
      eqIgnoreAsciiCase n hd.name = true →
      Headers.get (pre ++ hd :: post) n = some hd.value)
  ∧ (∀ x ∈ Headers.replace h n2 v, eqIgnoreAsciiCase n x.name = true → x = ⟨n2, v⟩)
  ∧ ((Headers.replace h n v).getLast? = some ⟨n, v⟩)
  ∧ ((Headers.replace h n v).filter (fun x => !eqIgnoreAsciiCase n x.name) =
      h.filter (fun x => !eqIgnoreAsciiCase n x.name))
  ∧ (∀ x ∈ Headers.remove h n, eqIgnoreAsciiCase n x.name = false)
  ∧ (∀ x ∈ h, eqIgnoreAsciiCase n x.name = false → x ∈ Headers.remove h n)
  ∧ (Headers.remove h n).Sublist h := by
  have hfun : (fun x : Header => eqIgnoreAsciiCase n x.name) =
      (fun x : Header => eqIgnoreAsciiCase n2 x.name) :=
    funext (fun x => eqIC_congr hvar x.name)
  refine ⟨?_, ?_, ?_, ?_, ?_, ?_, ?_, ?_⟩
  · unfold Headers.get
    rw [hfun]
  · intro hpre hhd
    unfold Headers.get
    rw [find?_append_first pre hd post _ (fun x hx => hpre x hx) hhd]
    rfl
  · intro x hx hmatch
    unfold Headers.replace at hx
    rcases List.mem_append.mp hx with hmem | hmem
    · have := (List.mem_filter.mp hmem).2
      rw [eqIC_congr hvar x.name] at hmatch
      simp [hmatch] at this
    · simpa using hmem
  · unfold Headers.replace
    exact List.getLast?_concat _
  · unfold Headers.replace
    rw [List.filter_append, List.filter_filter]
    have hsingle : ((⟨n, v⟩ : Header) :: []).filter
        (fun x => !eqIgnoreAsciiCase n x.name) = [] := by
      simp [List.filter_cons, eqIC_self]
    rw [hsingle, List.append_nil]
    exact List.filter_congr (fun x _ => by simp [Bool.and_self])
  · intro x hx
    have := (List.mem_filter.mp hx).2
    simpa using this
  · intro x hx hfalse
    exact List.mem_filter.mpr ⟨hx, by simp [hfalse]⟩
  · exact List.filter_sublist h

/-- C9, witness: case-invariant lookup and first-match at concrete
headers. -/
theorem c9_witness :
    Headers.get demoHeaders (bytes ("content-TYPE")) =
      Headers.get demoHeaders (bytes ("Content-Type"))
  ∧ Headers.get [⟨bytes ("Content-Type"), bytes ("a/b")⟩]
      (bytes ("content-TYPE")) = some (bytes ("a/b")) :=
  ⟨(c9_headers_ops demoHeaders [] [] ⟨bytes ("Content-Type"), bytes ("a/b")⟩
      (bytes ("content-TYPE")) (bytes ("Content-Type")) (bytes ("v2"))
      (by decide)).1,
   (c9_headers_ops demoHeaders [] [] ⟨bytes ("Content-Type"), bytes ("a/b")⟩
      (bytes ("content-TYPE")) (bytes ("Content-Type")) (bytes ("v2"))
      (by decide)).2.1 (by simp) (by decide)⟩

/-- C2, counterexample: the field value `a` CRLF SP `b` parses to `ab`,
not to `a b`: the obs-fold is replaced by the empty string, not by a
single SP. -/
theorem c2_counterexample :
    field_value (bytes ("a\r\n b")) = some (bytes ("ab"), [])
  ∧ bytes ("ab") ≠ bytes ("a b") :=
  ⟨by decide, by decide⟩

/-- C2, amended: an obs-fold (CRLF followed by a nonempty SP/HTAB run)
between two field-content bytes contributes nothing to the parsed
value: the surrounding field-content runs are concatenated directly,
with no separator byte. -/
theorem c2_obs_fold_empty (a b : Nat) (ws : List Nat)
    (ha : isVchar a = true) (hb : isVchar b = true)
    (hws : ws ≠ []) (hall : ∀ x ∈ ws, isSpHtab x = true) :
    field_value (a :: (crlfTag ++ (ws ++ [b]))) = some ([a, b], []) := by
  have ha2 : 33 ≤ a ∧ a ≤ 126 := by
    simpa [isVchar, Bool.and_eq_true, decide_eq_true_eq] using ha
  have hb2 : 33 ≤ b ∧ b ≤ 126 := by
    simpa [isVchar, Bool.and_eq_true, decide_eq_true_eq] using hb
  have hspb : isSpHtab b = false := by
    simp only [isSpHtab, Bool.or_eq_false_iff, beq_eq_false_iff_ne, ne_eq]
    omega
  have hfva : isFieldVchar a = true := by simp [isFieldVchar, ha]
  have hfvb : isFieldVchar b = true := by simp [isFieldVchar, hb]
  have hemp : ws.isEmpty = false := by
    cases ws with
    | nil => exact absurd rfl hws
    | cons y ys => rfl
  have h13 : isSpHtab 13 = false := by decide
  have hfv13 : isFieldVchar 13 = false := by decide
  have htw : (ws ++ [b]).takeWhile isSpHtab = ws :=
    takeWhile_append_all ws b [] hall hspb
  have hsp : spaces (ws ++ [b]) = some (ws, [b]) := by
    unfold spaces takeWhile1
    rw [htw]
    simp [hemp, List.drop_left]
  have s1 : fvElem (a :: (crlfTag ++ (ws ++ [b]))) =
      some ([a], crlfTag ++ (ws ++ [b])) := by
    simp [fvElem, field_content, charP, hfva, spaces, takeWhile1, crlfTag,
      List.takeWhile_cons, h13]
  have s2 : fvElem (crlfTag ++ (ws ++ [b])) = some ([], [b]) := by
    have hnofc : field_content (crlfTag ++ (ws ++ [b])) = none := by
      simp [field_content, charP, crlfTag, hfv13]
    have hof : obs_fold (crlfTag ++ (ws ++ [b])) = some ([], [b]) := by
      unfold obs_fold
      rw [tagP_exact]
      simp [hsp]
    simp [fvElem, hnofc, hof]
  have s3 : fvElem [b] = some ([b], []) := by
    simp [fvElem, field_content, charP, hfvb, spaces, takeWhile1]
  have s4 : fvElem [] = none := by decide
  have harithA : 1 < crlfTag.length + (ws.length + 1) := by
    simp only [crlfTag, List.length_cons, List.length_nil]
    omega
  have harithB : crlfTag.length + (ws.length + 1) <
      crlfTag.length + (ws.length + 1) + 1 := by omega
  have st0 : ∀ f, many0P.go fvElem (f + 1) [] = ([], []) := fun f => by
    simp [many0P.go, s4]
  have st1 : ∀ f, many0P.go fvElem (f + 1 + 1) [b] = ([[b]], []) := fun f => by
    simp [many0P.go, s3, s4]
  have st2 : ∀ f, many0P.go fvElem (f + 1 + 1 + 1) (crlfTag ++ (ws ++ [b])) =
      ([[], [b]], []) := fun f => by
    simp [many0P.go, s2, s3, s4, harithA]
  have st3 : ∀ f, many0P.go fvElem (f + 1 + 1 + 1 + 1)
      (a :: (crlfTag ++ (ws ++ [b]))) = ([[a], [], [b]], []) := fun f => by
    simp [many0P.go, s1, s2, s3, s4, harithA, harithB]
  have hlen : (a :: (crlfTag ++ (ws ++ [b]))).length =
      ws.length + 1 + 1 + 1 + 1 := by
    simp only [crlfTag, List.cons_append, List.nil_append, List.length_append,
      List.length_cons, List.length_nil]
  have hcond : ([a, b] : List Nat).all (fun x => x < 128) = true := by
    simp only [List.all_cons, List.all_nil, Bool.and_true, Bool.and_eq_true,
      decide_eq_true_eq]
    omega
  have hascii : fromUtf8Ascii [a, b] = some [a, b] := by
    unfold fromUtf8Ascii
    rw [if_pos hcond]
  unfold field_value many0P
  rw [hlen, st3 ws.length]
  simp [hascii]

/-- C2, witness: the amended statement at `a` CRLF SP `b`. -/
theorem c2_witness :
    field_value (97 :: (crlfTag ++ ([32] ++ [98]))) = some ([97, 98], []) :=
  c2_obs_fold_empty 97 98 [32] (by decide) (by decide) (by decide) (by decide)

theorem chunk_read_nil : Chunk.read [] = .err := by decide

theorem chunk_read_ne_nil {src : List Nat} {c : Chunk} {n : Nat}
    (h : Chunk.read src = .ok c n) : src ≠ [] := by
  intro he
  rw [he, chunk_read_nil] at h
  exact ChunkReadResult.noConfusion h

theorem chunk_read_consumed_ge {src : List Nat} {c : Chunk} {n : Nat}
    (h : Chunk.read src = .ok c n) : 2 ≤ n := by
  cases hh : chunk_head src with
  | none =>
    simp only [Chunk.read, hh] at h
    exact ChunkReadResult.noConfusion h
  | some v =>
    obtain ⟨⟨size, ext⟩, rem⟩ := v
    simp only [Chunk.read, hh] at h
    by_cases hs : 0 < size
    · rw [if_pos hs] at h
      by_cases hle : size ≤ rem.length
      · rw [if_pos hle] at h
        injection h with h1 h2
        omega
      · rw [if_neg hle] at h
        exact ChunkReadResult.noConfusion h
    · rw [if_neg hs] at h
      rcases hF : headersF rem with ⟨t, r2⟩
      rw [hF] at h
      injection h with h1 h2
      omega

theorem dropLoop_consumed (f : Nat) (src : List Nat) (c : Nat) :
    chunkStreamDropLoop (f + 1) src (.consumed c) =
      chunkStreamDropLoop (f + 1) (src.drop c) .notStarted := by
  simp only [chunkStreamDropLoop, chunkStreamNext, chunkStreamParse]
  cases he : (src.drop c).isEmpty
  · simp only [Bool.false_eq_true, if_false]
    cases hr : Chunk.read (src.drop c) with
    | ok ch m => cases ch <;> simp [hr]
    | err => simp [hr]
    | panic => simp [hr]
  · simp only [if_true]

theorem dropLoop_of_chunksThen {src tail : List Nat} (hd : ChunksThen src tail) :
    ∀ f, src.length + 2 ≤ f →
      chunkStreamDropLoop f src .notStarted = some tail := by
  induction hd with
  | lastChunk h =>
    rename_i src e t c
    intro f hf
    have hne : src ≠ [] := chunk_read_ne_nil h
    have hemp : src.isEmpty = false := by
      cases src with
      | nil => exact absurd rfl hne
      | cons x xs => rfl
    obtain ⟨f1, rfl⟩ : ∃ f1, f = f1 + 1 := ⟨f - 1, by omega⟩
    have hstep : chunkStreamDropLoop (f1 + 1) src .notStarted =
        chunkStreamDropLoop f1 src (.lastState c) := by
      simp only [chunkStreamDropLoop, chunkStreamNext, chunkStreamParse, hemp,
        Bool.false_eq_true, if_false, h]
    rw [hstep]
    obtain ⟨f2, rfl⟩ : ∃ f2, f1 = f2 + 1 := ⟨f1 - 1, by omega⟩
    simp only [chunkStreamDropLoop, chunkStreamNext]
  | cons h rest ih =>
    rename_i src tail e d c
    intro f hf
    have hne : src ≠ [] := chunk_read_ne_nil h
    have hc2 : 2 ≤ c := chunk_read_consumed_ge h
    have hemp : src.isEmpty = false := by
      cases src with
      | nil => exact absurd rfl hne
      | cons x xs => rfl
    have hlen : 1 ≤ src.length := by
      cases src with
      | nil => exact absurd rfl hne
      | cons x xs => simp
    obtain ⟨f1, rfl⟩ : ∃ f1, f = f1 + 1 := ⟨f - 1, by omega⟩
    have hstep : chunkStreamDropLoop (f1 + 1) src .notStarted =
        chunkStreamDropLoop f1 src (.consumed c) := by
      simp only [chunkStreamDropLoop, chunkStreamNext, chunkStreamParse, hemp,
        Bool.false_eq_true, if_false, h]
    rw [hstep]
    obtain ⟨f2, rfl⟩ : ∃ f2, f1 = f2 + 1 := ⟨f1 - 1, by omega⟩
    rw [dropLoop_consumed f2 src c]
    apply ih
    have hdl : (src.drop c).length = src.length - c := List.length_drop c src
    omega

theorem copy_from_empty_slice (rest next : List Nat) :
    ∀ f, 2 ≤ f → copyToSink f ⟨[], rest.length, rest ++ next⟩ = ⟨[], 0, next⟩ := by
  intro f hf
  cases rest with
  | nil =>
    cases f with
    | zero => rfl
    | succ f1 => rfl
  | cons r rs =>
    obtain ⟨f2, rfl⟩ : ∃ f2, f = f2 + 1 + 1 := ⟨f - 2, by omega⟩
    have htake : ((r :: rs) ++ next).take (r :: rs).length = r :: rs :=
      List.take_left _ _
    have hdrop : ((r :: rs) ++ next).drop (r :: rs).length = next :=
      List.drop_left _ _
    have hone : copyToSink (f2 + 1 + 1) (⟨[], (r :: rs).length, (r :: rs) ++ next⟩ : ChainTakeState) =
        copyToSink (f2 + 1) ⟨[], 0, next⟩ := by
      simp only [copyToSink, chainTakeRead, htake, hdrop]
      rw [if_neg (by simp)]
      simp
    rw [hone]
    rfl

/-- C7: (a) from any state whose pending consumption leaves the source
as a chunk run ending in a last chunk followed by `tail`, the
`ChunkStream` drop loop iterates to `Finished`, consuming every
remaining chunk (the last one's trailers and final CRLF included), and
leaves the source positioned exactly at `tail`; (b) dropping a
Reader-backed body (`slice.chain(upstream.take(k))`) with `k` bytes of
body remaining upstream drains the reader to EOF and leaves the
upstream positioned exactly on the following message's bytes. -/
theorem c7_drop_discipline :
    (∀ (st : ChunkStreamState) (src tail : List Nat),
      chunkStreamStateInv st src tail → ChunkStream.dropModel src st = some tail)
  ∧ (∀ (slice : List Nat) (k : Nat) (rest next : List Nat), k = rest.length →
      (MessageBody.dropDrain slice k (rest ++ next)).upstream = next
    ∧ chainTakeRead (MessageBody.dropDrain slice k (rest ++ next)) = none) := by
  constructor
  · intro st src tail hinv
    cases st with
    | notStarted => exact dropLoop_of_chunksThen hinv _ (by omega)
    | consumed n =>
      have h2 : chunkStreamDropLoop (src.length + 1 + 1) src (.consumed n) =
          some tail := by
        rw [dropLoop_consumed]
        apply dropLoop_of_chunksThen hinv
        have := List.length_drop n src
        omega
      exact h2
    | lastState n =>
      have h2 : chunkStreamDropLoop (src.length + 1 + 1) src (.lastState n) =
          some (src.drop n) := by
        simp only [chunkStreamDropLoop, chunkStreamNext]
      rw [hinv] at h2
      exact h2
    | finished =>
      have h2 : chunkStreamDropLoop (src.length + 1 + 1) src .finished =
          some src := by
        simp only [chunkStreamDropLoop, chunkStreamNext]
      rw [← hinv]
      exact h2
  · intro slice k rest next hk
    subst hk
    have hfin : MessageBody.dropDrain slice rest.length (rest ++ next) =
        ⟨[], 0, next⟩ := by
      cases slice with
      | nil => exact copy_from_empty_slice rest next 4 (by omega)
      | cons a s =>
        have hone : MessageBody.dropDrain (a :: s) rest.length (rest ++ next) =
            copyToSink 3 ⟨[], rest.length, rest ++ next⟩ := rfl
        rw [hone]
        exact copy_from_empty_slice rest next 3 (by omega)
    rw [hfin]
    exact ⟨rfl, rfl⟩

/-- The Wikipedia chunked body decomposes into three data chunks and a
last chunk, followed by the next message's bytes. -/
theorem wiki_deriv : ChunksThen wikiChunked (bytes ("NEXT")) := by
  have h1 : Chunk.read wikiChunked = .ok (.slice [] (bytes ("Wiki"))) 9 := by
    decide
  have h2 : Chunk.read (wikiChunked.drop 9) =
      .ok (.slice [] (bytes ("pedia"))) 10 := by decide
  have h3 : Chunk.read ((wikiChunked.drop 9).drop 10) =
      .ok (.slice [] (bytes (" in\r\n\r\nchunks."))) 19 := by decide
  have h4 : Chunk.read (((wikiChunked.drop 9).drop 10).drop 19) =
      .ok (.last [] []) 5 := by decide
  have h5 : (((wikiChunked.drop 9).drop 10).drop 19).drop 5 = bytes ("NEXT") := by
    decide
  exact .cons h1 (.cons h2 (.cons h3 (h5 ▸ ChunksThen.lastChunk h4)))

/-- C7, witness: dropping a fresh ChunkStream over the Wikipedia body
positions the source at `NEXT`; draining a dropped Reader body leaves
its upstream at the following bytes with the reader at EOF. -/
theorem c7_witness :
    ChunkStream.dropModel wikiChunked .notStarted = some (bytes ("NEXT"))
  ∧ (MessageBody.dropDrain (bytes ("ab")) 2
      (bytes ("cd") ++ bytes ("EF"))).upstream = bytes ("EF")
  ∧ chainTakeRead (MessageBody.dropDrain (bytes ("ab")) 2
      (bytes ("cd") ++ bytes ("EF"))) = none :=
  ⟨c7_drop_discipline.1 .notStarted wikiChunked (bytes ("NEXT")) wiki_deriv,
   (c7_drop_discipline.2 (bytes ("ab")) 2 (bytes ("cd")) (bytes ("EF"))
     (by decide)).1,
   (c7_drop_discipline.2 (bytes ("ab")) 2 (bytes ("cd")) (bytes ("EF"))
     (by decide)).2⟩

example : token (bytes ("GET /x")) = some (bytes ("GET"), bytes (" /x")) := by decide
example : http_version (bytes ("HTTP/1.1")) = some ((1, 1), []) := by decide
example : status_line (bytes ("HTTP/1.1 200 OK\r\nrest")) =
    some (⟨1, 1, 200, bytes ("OK")⟩, bytes ("rest")) := by decide
example : field_value (bytes ("plain/text\r\nC")) =
    some (bytes ("plain/text"), bytes ("\r\nC")) := by decide
example : field_value (bytes ("You can al\r\n so wrap onto new lines!")) =
    some (bytes ("You can also wrap onto new lines!"), []) := by decide
example : header_field (bytes ("Content-Type: plain/\r\n text ")) =
    some (⟨bytes ("Content-Type"), bytes ("plain/text")⟩, []) := by decide
example : chunk_head (bytes ("4;foo=bar\r\nWiki\r\n")) =
    some ((4, [(bytes ("foo"), some (bytes ("bar")))]), bytes ("Wiki\r\n")) := by decide
example : transfer_encoding (bytes ("gzip, chunked")) =
    some ([.gzip, .chunked], []) := by decide
example : Headers.transfer_encoding_all
    [⟨transferEncodingName, bytes ("gzip")⟩, ⟨bytes ("Content-Type"), bytes ("x")⟩,
     ⟨transferEncodingName, bytes ("chunked")⟩] = [.gzip, .chunked] := by decide

end HttpSpec
